/-
Verification of the heading-to-tree parser and node/edge model builder of the
`mindmap` repository (`src/main.py`).

The Python core consists of:
  * class `MindMap` with `add_node(label, level, parent_id=None, line_number=None)`
    (src/main.py lines 9-28), which appends a node record
    `{id, label, level, hidden: level > 1, line_number}` and, when `parent_id`
    is not None, an edge record `{from: parent_id, to: id}`;
  * `parse_markdown(file_path)` (src/main.py lines 357-431), which walks the
    markdown-it token stream, and for every `heading_open` token immediately
    followed by an `inline` token pops the `path` stack while `len(path) >= level`,
    takes `path[-1]` (if any) as the parent, adds the node and pushes its id.

The external markdown-it tokenizer is out of scope (spec section 6); it is
represented at its interface boundary by the `Token` type: a `heading_open`
token carries the already-parsed depth `int(token.tag[1])` (always 1..6 for
markdown-it) and the optional 0-based start line `token.map[0]`; every other
token kind is collapsed into `Token.other` since the builder ignores it.

The Python `path` list (append/pop at the right end) is embedded as a Lean
list with its head as the top of the stack, so `path.pop()` is `List.tail`
and `path[-1]` is `List.head?`.
-/
import Mathlib

structure Node where
  id : Nat
  label : String
  level : Nat
  hidden : Bool
  line_number : Option Nat
  deriving Repr, DecidableEq

structure Edge where
  from' : Nat
  to' : Nat
  deriving Repr, DecidableEq

structure MindMap where
  title : String
  nodes : List Node
  edges : List Edge
  node_counter : Nat
  deriving Repr, DecidableEq

/-- `MindMap()` with the default title (src/main.py line 10). -/
def MindMap.init : MindMap :=
  { title := "Mind Map", nodes := [], edges := [], node_counter := 0 }

/-- `MindMap.add_node` (src/main.py lines 16-28): append a node with the next
sequential id, `hidden = level > 1`, and when a parent id is given also append
the edge `parent_id -> node_id`.  Returns the updated map and the new id. -/
def MindMap.add_node (m : MindMap) (label : String) (level : Nat)
    (parent_id : Option Nat) (line_number : Option Nat) : MindMap × Nat :=
  let node_id := m.node_counter
  let m' : MindMap :=
    { title := m.title
      nodes := m.nodes ++ [{ id := node_id, label := label, level := level,
                             hidden := decide (level > 1), line_number := line_number }]
      edges := match parent_id with
               | some p => m.edges ++ [{ from' := p, to' := node_id }]
               | none => m.edges
      node_counter := m.node_counter + 1 }
  (m', node_id)

/-- The external tokenizer's token records, at the interface boundary the
builder consumes (spec section 6): `heading_open` carries the parsed level
`int(token.tag[1])` and the optional 0-based `token.map[0]` start line;
`inline` carries the heading text `token.content`; all other token kinds are
ignored by the builder and collapsed to `other`. -/
inductive Token where
  | heading_open (level : Nat) (lineMap : Option Nat)
  | inline (content : String)
  | other
  deriving Repr, DecidableEq

/-- One heading event: the `(level, text, optional 0-based start line)` triple
the builder extracts from a `heading_open` token followed by an `inline`
token (spec section 4.1). -/
structure HeadingEvent where
  level : Nat
  label : String
  lineMap : Option Nat
  deriving Repr, DecidableEq

/-- The `while len(path) >= level: path.pop()` loop of `parse_markdown`
(src/main.py lines 417-418), on the head-is-top representation of `path`.
For `level = 0` and a non-empty stack Python would raise `IndexError`
(pop from an empty list); that case is unreachable because markdown-it
heading tags are `h1`..`h6`, and the total Lean function returns `[]` there. -/
def popStack : List Nat → Nat → List Nat
  | [], _ => []
  | x :: xs, level => if level ≤ xs.length + 1 then popStack xs level else x :: xs

/-- The body of the heading branch of `parse_markdown`'s token loop
(src/main.py lines 410-424): pop the stack, read the parent from the new top,
add the node, push its id. -/
def processEvent (s : MindMap × List Nat) (e : HeadingEvent) : MindMap × List Nat :=
  let path1 := popStack s.2 e.level
  let parent_id := path1.head?
  let line_number := e.lineMap.map (fun l => l + 1)
  let r := s.1.add_node e.label e.level parent_id line_number
  (r.1, r.2 :: path1)

/-- The token loop of `parse_markdown` (src/main.py lines 402-425): a
`heading_open` token immediately followed by an `inline` token produces a
node; every other token (including a `heading_open` with no following
`inline`) is skipped.  The loop advances `i` by one each iteration, so after a
heading is processed the `inline` token is revisited and ignored. -/
def build : List Token → MindMap × List Nat → MindMap × List Nat
  | [], s => s
  | Token.heading_open level lineMap :: Token.inline content :: rest, s =>
      build (Token.inline content :: rest)
        (processEvent s { level := level, label := content, lineMap := lineMap })
  | _ :: rest, s => build rest s

/-- The heading events a token stream yields: one per `heading_open` token
immediately followed by an `inline` token, in order. -/
def headingEvents : List Token → List HeadingEvent
  | [] => []
  | Token.heading_open level lineMap :: Token.inline content :: rest =>
      { level := level, label := content, lineMap := lineMap }
        :: headingEvents (Token.inline content :: rest)
  | _ :: rest => headingEvents rest

/-- The builder loop expressed directly on heading events. -/
def buildE : List HeadingEvent → MindMap × List Nat → MindMap × List Nat
  | [], s => s
  | e :: rest, s => buildE rest (processEvent s e)

/-- The mind map `parse_markdown` builds from a token stream, starting from
`MindMap()` and `path = []` (src/main.py lines 399-400). -/
def buildMindMap (tokens : List Token) : MindMap :=
  (build tokens (MindMap.init, [])).1

/-- The mind map built from a heading-event sequence. -/
def mindmapOfEvents (evs : List HeadingEvent) : MindMap :=
  (buildE evs (MindMap.init, [])).1

/-- The single-quote character the f-strings put around the file path. -/
def squote : String := String.mk [Char.ofNat 39]

/-- The message of the `ValueError` raised for empty input
(src/main.py line 391): `Input file (file_path) is empty.` with the path
single-quoted. -/
def empty_input_message (file_path : String) : String :=
  "Input file " ++ squote ++ file_path ++ squote ++ " is empty."

/-- The message of the `ValueError` raised when no heading produced a node
(src/main.py line 429). -/
def no_headings_message (file_path : String) : String :=
  "No valid headings found in " ++ squote ++ file_path ++ squote
    ++ ". Please ensure the file contains markdown headings (# ## ### etc.)."

/-- The failures `parse_markdown` raises after the file has been read: both
raise sites use `ValueError` carrying a message string, so the carried message
is what distinguishes them for a caller. -/
inductive ParseError where
  | valueError (msg : String)
  deriving Repr, DecidableEq

/-- The test `not content.strip()` of src/main.py line 390: true exactly when
the content is empty or consists only of whitespace characters (modelled with
ASCII whitespace, which covers every character Python's `strip` removes that
can occur here). -/
def isBlank (content : String) : Bool :=
  content.data.all Char.isWhitespace

/-- `parse_markdown` (src/main.py lines 357-431) after the file-system layer:
`content` is the text read from `file_path` and `tokens` the external
tokenizer's output for it.  Empty (or whitespace-only) content fails first
(line 390-391); a build that produced no nodes fails with the distinct
no-headings message (lines 428-429); otherwise the built map is returned. -/
def parse_markdown (file_path content : String) (tokens : List Token) :
    Except ParseError MindMap :=
  if isBlank content then
    Except.error (ParseError.valueError (empty_input_message file_path))
  else
    let mind_map := buildMindMap tokens
    if mind_map.nodes.isEmpty then
      Except.error (ParseError.valueError (no_headings_message file_path))
    else
      Except.ok mind_map

/-- The node `add_node` creates for the heading event `e` under id `node_id`. -/
def mkNode (node_id : Nat) (e : HeadingEvent) : Node :=
  { id := node_id, label := e.label, level := e.level,
    hidden := decide (e.level > 1), line_number := e.lineMap.map (fun l => l + 1) }

/-- The nodes a heading-event sequence contributes, ids starting at `node_id`. -/
def nodesOfEvents (node_id : Nat) : List HeadingEvent → List Node
  | [] => []
  | e :: rest => mkNode node_id e :: nodesOfEvents (node_id + 1) rest

theorem processEvent_fst (s : MindMap × List Nat) (e : HeadingEvent) :
    (processEvent s e).1 =
      { title := s.1.title,
        nodes := s.1.nodes ++ [mkNode s.1.node_counter e],
        edges := s.1.edges ++ (popStack s.2 e.level).head?.toList.map
          (fun p => { from' := p, to' := s.1.node_counter }),
        node_counter := s.1.node_counter + 1 } := by
  cases h : (popStack s.2 e.level).head? with
  | none => simp [processEvent, MindMap.add_node, mkNode, h]
  | some p => simp [processEvent, MindMap.add_node, mkNode, h]

theorem processEvent_snd (s : MindMap × List Nat) (e : HeadingEvent) :
    (processEvent s e).2 = s.1.node_counter :: popStack s.2 e.level := rfl

/-- The token loop creates exactly the nodes and edges of the extracted
heading-event sequence: a token stream and its heading events build the same
state from any starting state. -/
theorem build_eq_buildE :
    ∀ (tokens : List Token) (s : MindMap × List Nat),
      build tokens s = buildE (headingEvents tokens) s := by
  intro tokens
  induction tokens with
  | nil => intro s; rfl
  | cons t rest ih =>
    intro s
    cases t with
    | heading_open level lineMap =>
      cases rest with
      | nil => simp [build, headingEvents, buildE]
      | cons t2 rest2 =>
        cases t2 with
        | heading_open l2 lm2 => simpa [build, headingEvents] using ih s
        | inline c => simp [build, headingEvents, buildE]; exact ih _
        | other => simpa [build, headingEvents] using ih s
    | inline c => simpa [build, headingEvents] using ih s
    | other => simpa [build, headingEvents] using ih s

/-- Closed form of the node list: the builder appends one node per heading
event, with sequential ids continuing from the current counter. -/
theorem buildE_nodes :
    ∀ (evs : List HeadingEvent) (s : MindMap × List Nat),
      (buildE evs s).1.nodes = s.1.nodes ++ nodesOfEvents s.1.node_counter evs := by
  intro evs
  induction evs with
  | nil => intro s; simp [buildE, nodesOfEvents]
  | cons e rest ih =>
    intro s
    rw [buildE, ih, nodesOfEvents, processEvent_fst]
    simp

theorem buildE_counter :
    ∀ (evs : List HeadingEvent) (s : MindMap × List Nat),
      (buildE evs s).1.node_counter = s.1.node_counter + evs.length := by
  intro evs
  induction evs with
  | nil => intro s; simp [buildE]
  | cons e rest ih =>
    intro s
    rw [buildE, ih, processEvent_fst]
    simp
    omega

theorem nodesOfEvents_length :
    ∀ (c : Nat) (evs : List HeadingEvent), (nodesOfEvents c evs).length = evs.length := by
  intro c evs
  induction evs generalizing c with
  | nil => simp [nodesOfEvents]
  | cons e rest ih => simp [nodesOfEvents, ih]

theorem nodesOfEvents_getElem? :
    ∀ (c : Nat) (evs : List HeadingEvent) (i : Nat),
      (nodesOfEvents c evs)[i]? = evs[i]?.map (fun e => mkNode (c + i) e) := by
  intro c evs
  induction evs generalizing c with
  | nil => intro i; simp [nodesOfEvents]
  | cons e rest ih =>
    intro i
    cases i with
    | zero => simp [nodesOfEvents]
    | succ j =>
      simp only [nodesOfEvents, List.getElem?_cons_succ, ih]
      have : c + 1 + j = c + (j + 1) := by omega
      rw [this]

theorem nodesOfEvents_map_id :
    ∀ (c : Nat) (evs : List HeadingEvent),
      (nodesOfEvents c evs).map Node.id = List.range' c evs.length := by
  intro c evs
  induction evs generalizing c with
  | nil => simp [nodesOfEvents]
  | cons e rest ih => simp [nodesOfEvents, List.range'_succ, mkNode, ih]

theorem nodesOfEvents_hidden :
    ∀ (c : Nat) (evs : List HeadingEvent), ∀ n ∈ nodesOfEvents c evs,
      n.hidden = decide (1 < n.level) := by
  intro c evs
  induction evs generalizing c with
  | nil => simp [nodesOfEvents]
  | cons e rest ih =>
    intro n hn
    rcases List.mem_cons.mp hn with h | h
    · subst h; rfl
    · exact ih (c + 1) n h

theorem popStack_subset :
    ∀ (l : List Nat) (n : Nat), ∀ x ∈ popStack l n, x ∈ l := by
  intro l
  induction l with
  | nil => intro n x hx; simp [popStack] at hx
  | cons a as ih =>
    intro n x hx
    rw [popStack] at hx
    split at hx
    · exact List.mem_cons_of_mem _ (ih n x hx)
    · exact hx

theorem popStack_length :
    ∀ (l : List Nat) (n : Nat), 1 ≤ n →
      (popStack l n).length = min l.length (n - 1) := by
  intro l
  induction l with
  | nil => intro n hn; simp [popStack]
  | cons a as ih =>
    intro n hn
    rw [popStack]
    split
    · rw [ih n hn]; simp; omega
    · simp; omega

/-- Well-formedness of the edge list maintained by the builder: every edge
points from a strictly smaller id to a strictly larger id below the counter,
and no two distinct edges share their target node. -/
def edgesWF (m : MindMap) : Prop :=
  (∀ e ∈ m.edges, e.from' < e.to' ∧ e.to' < m.node_counter) ∧
  (∀ e1 ∈ m.edges, ∀ e2 ∈ m.edges, e1.to' = e2.to' → e1 = e2)

theorem processEvent_edgesWF (s : MindMap × List Nat) (e : HeadingEvent)
    (h : edgesWF s.1) (hp : ∀ p ∈ s.2, p < s.1.node_counter) :
    edgesWF (processEvent s e).1 ∧
      ∀ p ∈ (processEvent s e).2, p < (processEvent s e).1.node_counter := by
  obtain ⟨hlt, hinj⟩ := h
  have hppop : ∀ p ∈ popStack s.2 e.level, p < s.1.node_counter :=
    fun p hp' => hp p (popStack_subset _ _ p hp')
  rw [processEvent_fst, processEvent_snd]
  cases hcase : (popStack s.2 e.level).head? with
  | none =>
    refine ⟨⟨?_, ?_⟩, ?_⟩
    · intro e' he'
      simp [hcase] at he'
      have := hlt e' he'
      exact ⟨this.1, Nat.lt_succ_of_lt this.2⟩
    · intro e1 h1 e2 h2 heq
      simp [hcase] at h1 h2
      exact hinj e1 h1 e2 h2 heq
    · intro p hp'
      simp at hp'
      rcases hp' with rfl | hp'
      · simp
      · exact Nat.lt_succ_of_lt (hppop p hp')
  | some q =>
    have hq : q < s.1.node_counter := hppop q (List.mem_of_mem_head? (by simp [hcase]))
    refine ⟨⟨?_, ?_⟩, ?_⟩
    · intro e' he'
      simp [hcase] at he'
      rcases he' with he' | rfl
      · have := hlt e' he'
        exact ⟨this.1, Nat.lt_succ_of_lt this.2⟩
      · exact ⟨hq, Nat.lt_succ_self _⟩
    · intro e1 h1 e2 h2 heq
      simp [hcase] at h1 h2
      rcases h1 with h1 | rfl <;> rcases h2 with h2 | rfl
      · exact hinj e1 h1 e2 h2 heq
      · exact absurd heq (Nat.ne_of_lt (hlt e1 h1).2)
      · exact absurd heq.symm (Nat.ne_of_lt (hlt e2 h2).2)
      · rfl
    · intro p hp'
      simp at hp'
      rcases hp' with rfl | hp'
      · simp
      · exact Nat.lt_succ_of_lt (hppop p hp')

theorem buildE_edgesWF :
    ∀ (evs : List HeadingEvent) (s : MindMap × List Nat),
      edgesWF s.1 → (∀ p ∈ s.2, p < s.1.node_counter) →
      edgesWF (buildE evs s).1 := by
  intro evs
  induction evs with
  | nil => intro s h _; exact h
  | cons e rest ih =>
    intro s h hp
    have step := processEvent_edgesWF s e h hp
    exact ih _ step.1 step.2

theorem mindmapOfEvents_edgesWF (evs : List HeadingEvent) :
    edgesWF (mindmapOfEvents evs) := by
  apply buildE_edgesWF
  · exact ⟨by simp [MindMap.init], by simp [MindMap.init]⟩
  · simp

theorem mindmapOfEvents_nodes (evs : List HeadingEvent) :
    (mindmapOfEvents evs).nodes = nodesOfEvents 0 evs := by
  rw [mindmapOfEvents, buildE_nodes]
  simp [MindMap.init]

/-- The edge relation of the produced graph on node ids. -/
def hasEdge (m : MindMap) (a b : Nat) : Prop :=
  ({ from' := a, to' := b } : Edge) ∈ m.edges

theorem transGen_lt (m : MindMap) (h : ∀ e ∈ m.edges, e.from' < e.to') :
    ∀ a b : Nat, Relation.TransGen (hasEdge m) a b → a < b := by
  intro a b hab
  induction hab with
  | single h' => exact h _ h'
  | tail _ hstep ih => exact Nat.lt_trans ih (h _ hstep)

/-- The two `ValueError` messages of `parse_markdown` are distinct for every
file path, so a caller can tell the two failures apart. -/
theorem messages_distinct (fp : String) :
    no_headings_message fp ≠ empty_input_message fp := by
  intro h
  have h2 := congrArg String.length h
  have e1 : ("No valid headings found in " : String).length = 27 := rfl
  have e2 : ("Input file " : String).length = 11 := rfl
  have e3 : (". Please ensure the file contains markdown headings (# ## ### etc.)." :
      String).length = 68 := rfl
  have e4 : (" is empty." : String).length = 10 := rfl
  have e5 : squote.length = 1 := rfl
  simp only [no_headings_message, empty_input_message, String.length_append,
    e1, e2, e3, e4, e5] at h2
  omega

/-- C5: every node in the graph produced by the builder has
`hidden = (level > 1)`; the core model is append-only and exposes no
operation that modifies a node after creation, so this holds for the final
graph of every heading-event sequence. -/
theorem hidden_eq_level_gt_one (evs : List HeadingEvent) (n : Node)
    (hn : n ∈ (mindmapOfEvents evs).nodes) : n.hidden = decide (1 < n.level) := by
  rw [mindmapOfEvents_nodes] at hn
  exact nodesOfEvents_hidden 0 evs n hn

theorem hidden_eq_level_gt_one_witness :
    ({ id := 1, label := "B", level := 2, hidden := true, line_number := none } : Node).hidden
      = decide (1 < ({ id := 1, label := "B", level := 2, hidden := true,
                       line_number := none } : Node).level) :=
  hidden_eq_level_gt_one
    [{ level := 1, label := "A", lineMap := none },
     { level := 2, label := "B", lineMap := none }] _ (by decide)

/-- C6: a level-1 heading followed directly by a level-3 heading yields
exactly two nodes and the single edge from the first to the second, and in
general the builder creates exactly one node per heading event, so no
synthetic intermediate node is ever invented for skipped levels. -/
theorem skip_level_non_synthesis :
    mindmapOfEvents
        [{ level := 1, label := "A", lineMap := none },
         { level := 3, label := "B", lineMap := none }] =
      { title := "Mind Map",
        nodes := [{ id := 0, label := "A", level := 1, hidden := false, line_number := none },
                  { id := 1, label := "B", level := 3, hidden := true, line_number := none }],
        edges := [{ from' := 0, to' := 1 }],
        node_counter := 2 } ∧
    ∀ evs : List HeadingEvent, (mindmapOfEvents evs).nodes.length = evs.length := by
  constructor
  · rfl
  · intro evs
    rw [mindmapOfEvents_nodes, nodesOfEvents_length]

/-- C7: the produced edge set is a forest on node ids: no two edges share
their target (in-degree at most one), and every chain of edges strictly
increases the id, so following edges can never return to a node (no cycles:
a cycle at `a` would give `a < a`). -/
theorem forest_invariant (evs : List HeadingEvent) :
    (∀ e1 ∈ (mindmapOfEvents evs).edges, ∀ e2 ∈ (mindmapOfEvents evs).edges,
        e1.to' = e2.to' → e1 = e2) ∧
    (∀ a b : Nat, Relation.TransGen (hasEdge (mindmapOfEvents evs)) a b → a < b) := by
  constructor
  · exact (mindmapOfEvents_edgesWF evs).2
  · exact transGen_lt _ (fun e he => ((mindmapOfEvents_edgesWF evs).1 e he).1)

theorem forest_invariant_witness :
    ({ from' := 0, to' := 1 } : Edge) = { from' := 0, to' := 1 } ∧ (0 : Nat) < 1 := by
  constructor
  · exact (forest_invariant
      [{ level := 1, label := "A", lineMap := none },
       { level := 2, label := "B", lineMap := none }]).1 _ (by decide) _ (by decide) rfl
  · exact (forest_invariant
      [{ level := 1, label := "A", lineMap := none },
       { level := 2, label := "B", lineMap := none }]).2 0 1
      (Relation.TransGen.single (show ({ from' := 0, to' := 1 } : Edge) ∈ _ by decide))

/-- C8: node ids are the sequence `0, 1, 2, ...` in list (= document) order:
the id list of the produced graph is exactly `List.range` of its length, so
ids start at 0, strictly increase in document order, and are never reused. -/
theorem ids_sequential (evs : List HeadingEvent) :
    (mindmapOfEvents evs).nodes.map Node.id =
      List.range (mindmapOfEvents evs).nodes.length := by
  rw [mindmapOfEvents_nodes, nodesOfEvents_map_id, nodesOfEvents_length,
    List.range_eq_range']

/-- C9: the node created for the i-th heading event carries
`line_number = start_line + 1` when the tokenizer provided the 0-based
`start_line`, and `line_number = none` exactly when it provided no mapping:
the stored field is the `Option.map (+1)` of the event's mapping. -/
theorem source_line_normalization (evs : List HeadingEvent) (i : Nat)
    (e : HeadingEvent) (n : Node)
    (he : evs[i]? = some e) (hn : (mindmapOfEvents evs).nodes[i]? = some n) :
    n.line_number = e.lineMap.map (fun l => l + 1) := by
  rw [mindmapOfEvents_nodes, nodesOfEvents_getElem?, he] at hn
  simp at hn
  rw [← hn]
  rfl

theorem source_line_normalization_witness :
    ({ id := 0, label := "A", level := 1, hidden := false,
       line_number := some 5 } : Node).line_number =
      (some 4 : Option Nat).map (fun l => l + 1) :=
  source_line_normalization [{ level := 1, label := "A", lineMap := some 4 }] 0
    { level := 1, label := "A", lineMap := some 4 } _ (by decide) (by decide)

/-- C10: every edge of the produced graph points from a strictly smaller id
to a strictly larger id, so a node's parent always precedes it in document
order. -/
theorem edge_from_lt_to (evs : List HeadingEvent) :
    ∀ e ∈ (mindmapOfEvents evs).edges, e.from' < e.to' := by
  intro e he
  exact ((mindmapOfEvents_edgesWF evs).1 e he).1

theorem edge_from_lt_to_witness :
    ({ from' := 0, to' := 1 } : Edge).from' < ({ from' := 0, to' := 1 } : Edge).to' :=
  edge_from_lt_to
    [{ level := 1, label := "A", lineMap := none },
     { level := 2, label := "B", lineMap := none }] _ (by decide)

/-- Modelled from the spec: the token stream the external markdown-it
tokenizer produces for the round-trip input
`# A\n## B\n## C\n### D\n# E\n` — for each heading, a heading-open token
carrying the depth and the 0-based start line of the heading, the inline
text token, and a closing token (collapsed to `other`; spec section 6). -/
def roundTripTokens : List Token :=
  [Token.heading_open 1 (some 0), Token.inline "A", Token.other,
   Token.heading_open 2 (some 1), Token.inline "B", Token.other,
   Token.heading_open 2 (some 2), Token.inline "C", Token.other,
   Token.heading_open 3 (some 3), Token.inline "D", Token.other,
   Token.heading_open 1 (some 4), Token.inline "E", Token.other]

/-- C2: the round-trip input produces exactly the five nodes
`(0,"A",1), (1,"B",2), (2,"C",2), (3,"D",3), (4,"E",1)` and exactly the
three edges `0->1, 0->2, 2->3`; node `E` (id 4) is the target of no edge. -/
theorem round_trip_scenario :
    parse_markdown "input.md" "# A\n## B\n## C\n### D\n# E\n" roundTripTokens =
      Except.ok
        { title := "Mind Map",
          nodes :=
            [{ id := 0, label := "A", level := 1, hidden := false, line_number := some 1 },
             { id := 1, label := "B", level := 2, hidden := true, line_number := some 2 },
             { id := 2, label := "C", level := 2, hidden := true, line_number := some 3 },
             { id := 3, label := "D", level := 3, hidden := true, line_number := some 4 },
             { id := 4, label := "E", level := 1, hidden := false, line_number := some 5 }],
          edges := [{ from' := 0, to' := 1 }, { from' := 0, to' := 2 },
                    { from' := 2, to' := 3 }],
          node_counter := 5 } := rfl

/-- C3: on any non-empty content whose token stream contains no heading
event, `parse_markdown` fails with the no-headings `ValueError` rather than
returning an empty graph; that message differs from the empty-input message
for every file path, and empty (or whitespace-only) content always produces
the empty-input failure — so a caller can distinguish the two conditions. -/
theorem zero_heading_error_distinct (file_path content : String)
    (tokens : List Token)
    (hne : isBlank content = false) (hnoev : headingEvents tokens = []) :
    parse_markdown file_path content tokens =
        Except.error (ParseError.valueError (no_headings_message file_path)) ∧
      no_headings_message file_path ≠ empty_input_message file_path ∧
      ∀ (content2 : String) (tokens2 : List Token), isBlank content2 = true →
        parse_markdown file_path content2 tokens2 =
          Except.error (ParseError.valueError (empty_input_message file_path)) := by
  refine ⟨?_, messages_distinct file_path, ?_⟩
  · have hmap : buildMindMap tokens = MindMap.init := by
      rw [buildMindMap, build_eq_buildE, hnoev]
      rfl
    rw [parse_markdown, hmap]
    simp [hne, MindMap.init]
  · intro content2 tokens2 h2
    rw [parse_markdown]
    simp [h2]

theorem zero_heading_error_distinct_witness :
    parse_markdown "doc.md" "just text, no headings\n"
        [Token.other, Token.inline "just text, no headings", Token.other] =
      Except.error (ParseError.valueError (no_headings_message "doc.md")) :=
  (zero_heading_error_distinct "doc.md" "just text, no headings\n"
    [Token.other, Token.inline "just text, no headings", Token.other]
    (by decide) (by decide)).1

theorem headingEvents_erase_malformed :
    ∀ (pre post : List Token) (level : Nat) (lm : Option Nat),
      (∀ c : String, post.head? ≠ some (Token.inline c)) →
      headingEvents (pre ++ Token.heading_open level lm :: post) =
        headingEvents (pre ++ post) := by
  intro pre
  induction pre with
  | nil =>
    intro post level lm h
    cases post with
    | nil => rfl
    | cons t2 rest2 =>
      cases t2 with
      | inline c => exact absurd rfl (h c)
      | heading_open l2 m2 => simp [headingEvents]
      | other => simp [headingEvents]
  | cons t pre' ih =>
    intro post level lm h
    cases t with
    | heading_open l2 m2 =>
      cases pre' with
      | nil =>
        cases post with
        | nil => rfl
        | cons t3 r3 =>
          cases t3 with
          | inline c => exact absurd rfl (h c)
          | heading_open l3 m3 => simp [headingEvents]
          | other => simp [headingEvents]
      | cons t2 pre'' =>
        cases t2 with
        | inline c =>
          simp only [List.cons_append, headingEvents]
          have := ih post level lm h
          simp only [List.cons_append, headingEvents] at this
          rw [this]
        | heading_open l3 m3 =>
          simp only [List.cons_append, headingEvents]
          have := ih post level lm h
          simpa only [List.cons_append] using this
        | other =>
          simp only [List.cons_append, headingEvents]
          have := ih post level lm h
          simpa only [List.cons_append] using this
    | inline c =>
      simp only [List.cons_append, headingEvents]
      exact ih post level lm h
    | other =>
      simp only [List.cons_append, headingEvents]
      exact ih post level lm h

/-- C4: a heading-open token whose successor is not an inline-content token
contributes nothing: the whole builder run (final mind map and final path
stack, from any starting state) is identical to the run on the token list
with the malformed token removed, so no node or edge is created and all
subsequent parent and sibling resolution is as if it were absent. -/
theorem malformed_heading_skipped (pre post : List Token) (level : Nat)
    (lm : Option Nat) (s : MindMap × List Nat)
    (h : ∀ c : String, post.head? ≠ some (Token.inline c)) :
    build (pre ++ Token.heading_open level lm :: post) s = build (pre ++ post) s := by
  rw [build_eq_buildE, build_eq_buildE,
    headingEvents_erase_malformed pre post level lm h]

theorem malformed_heading_skipped_witness :
    build [Token.heading_open 1 (some 0), Token.inline "A", Token.other,
           Token.heading_open 2 (some 1), Token.other,
           Token.heading_open 2 (some 2), Token.inline "B", Token.other]
        (MindMap.init, []) =
      build [Token.heading_open 1 (some 0), Token.inline "A", Token.other,
             Token.other,
             Token.heading_open 2 (some 2), Token.inline "B", Token.other]
        (MindMap.init, []) :=
  malformed_heading_skipped
    [Token.heading_open 1 (some 0), Token.inline "A", Token.other]
    [Token.other, Token.heading_open 2 (some 2), Token.inline "B", Token.other]
    2 (some 1) (MindMap.init, [])
    (by intro c hc; simp at hc)

/-- The parent invariant claimed by the spec, stated on a produced graph: the
from-endpoint of every edge is the node with the largest id among nodes with
id smaller than the target's and level strictly smaller than the target's,
and a node with no incoming edge is preceded by no node of strictly smaller
level. -/
def ParentInvariant (m : MindMap) : Prop :=
  (∀ e ∈ m.edges, ∀ c ∈ m.nodes, c.id = e.to' →
      ∃ p ∈ m.nodes, p.id = e.from' ∧ p.id < c.id ∧ p.level < c.level ∧
        ∀ q ∈ m.nodes, p.id < q.id → q.id < c.id → ¬ q.level < c.level) ∧
  (∀ c ∈ m.nodes, (∀ e ∈ m.edges, e.to' ≠ c.id) →
      ∀ q ∈ m.nodes, q.id < c.id → ¬ q.level < c.level)

instance (m : MindMap) : Decidable (ParentInvariant m) := by
  unfold ParentInvariant
  infer_instance

/-- Levels of a heading-event sequence relative to a preceding depth `prev`:
each level is at least 1 and exceeds its predecessor by at most one. -/
def noSkipFrom : Nat → List HeadingEvent → Bool
  | _, [] => true
  | prev, e :: rest =>
      decide (1 ≤ e.level) && decide (e.level ≤ prev + 1) && noSkipFrom e.level rest

/-- A heading-event sequence without level skips: the first heading has level
1 and each later heading's level is at least 1 and at most one more than its
predecessor's. -/
def NoSkip (evs : List HeadingEvent) : Bool := noSkipFrom 0 evs

/-- The stack discipline the builder maintains on no-skip inputs: reading the
path stack from the head (its top), the entry at depth `d` (1-based from the
bottom, so the head sits at depth = length) is a valid node id whose node has
level exactly `d`, and every node created after it has level at least
`d + 1`. -/
def StackOK (m : MindMap) : List Nat → Prop
  | [] => True
  | p :: rest =>
      p < m.nodes.length ∧
      (∀ nd, m.nodes[p]? = some nd → nd.level = rest.length + 1) ∧
      (∀ q nd, p < q → m.nodes[q]? = some nd → rest.length + 2 ≤ nd.level) ∧
      StackOK m rest

theorem StackOK_popStack (m : MindMap) :
    ∀ (l : List Nat) (n : Nat), StackOK m l → StackOK m (popStack l n) := by
  intro l
  induction l with
  | nil => intro n h; simpa [popStack] using h
  | cons a as ih =>
    intro n h
    rw [popStack]
    split
    · simp only [StackOK] at h
      exact ih n h.2.2.2
    · exact h

theorem getElem?_concat {α : Type} (l : List α) (a : α) (i : Nat) :
    (l ++ [a])[i]? =
      if i < l.length then l[i]? else if i = l.length then some a else none := by
  split
  · exact List.getElem?_append_left (by assumption)
  · split
    · next h heq => subst heq; exact List.getElem?_concat_length l a
    · next h hne =>
      apply List.getElem?_eq_none
      simp
      omega

/-- Appending one node of sufficiently large level preserves the stack
discipline. -/
theorem StackOK_extend (m m' : MindMap) (nd : Node)
    (hnodes : m'.nodes = m.nodes ++ [nd]) :
    ∀ l : List Nat, StackOK m l → l.length + 1 ≤ nd.level → StackOK m' l := by
  intro l
  induction l with
  | nil => intro _ _; trivial
  | cons a as ih =>
    intro h hlev
    simp only [StackOK] at h ⊢
    obtain ⟨ha, hlv, hdom, hrest⟩ := h
    refine ⟨?_, ?_, ?_, ?_⟩
    · rw [hnodes]
      simp
      omega
    · intro nd' hnd'
      apply hlv
      rw [hnodes, getElem?_concat] at hnd'
      rw [if_pos ha] at hnd'
      exact hnd'
    · intro q nd' hq hnd'
      rw [hnodes, getElem?_concat] at hnd'
      split at hnd'
      · exact hdom q nd' hq hnd'
      · split at hnd'
        · injection hnd' with h3
          subst h3
          simp only [List.length_cons] at hlev
          omega
        · cases hnd'
    · apply ih hrest
      simp only [List.length_cons] at hlev
      omega

/-- The full invariant carried through the builder loop for the no-skip
parent-correctness proof. -/
structure SInv (m : MindMap) (path : List Nat) : Prop where
  counter_eq : m.node_counter = m.nodes.length
  ids_eq : ∀ (i : Nat) (nd : Node), m.nodes[i]? = some nd → nd.id = i
  levels_pos : ∀ nd ∈ m.nodes, 1 ≤ nd.level
  edges_lt : ∀ e ∈ m.edges, e.from' < e.to' ∧ e.to' < m.node_counter
  stack_ok : StackOK m path
  parent_inv : ParentInvariant m

theorem processEvent_SInv (s : MindMap × List Nat) (e : HeadingEvent)
    (h : SInv s.1 s.2) (h1 : 1 ≤ e.level) (h2 : e.level ≤ s.2.length + 1) :
    SInv (processEvent s e).1 (processEvent s e).2 ∧
      (processEvent s e).2.length = e.level := by
  obtain ⟨hcnt, hids, hpos, hedlt, hstk, hpiA, hpiB⟩ := h
  have hmem_idx : ∀ n ∈ s.1.nodes, s.1.nodes[n.id]? = some n := by
    intro n hn
    rcases List.mem_iff_getElem?.mp hn with ⟨i, hi⟩
    rw [hids i n hi]
    exact hi
  have hql : ∀ n ∈ s.1.nodes, n.id < s.1.node_counter := by
    intro n hn
    rcases List.mem_iff_getElem?.mp hn with ⟨i, hi⟩
    rw [hids i n hi, hcnt]
    exact (List.getElem?_eq_some_iff.mp hi).1
  have hlen1 : (popStack s.2 e.level).length = e.level - 1 := by
    rw [popStack_length s.2 e.level h1]
    omega
  have hstk1 : StackOK s.1 (popStack s.2 e.level) :=
    StackOK_popStack s.1 s.2 e.level hstk
  rw [processEvent_fst, processEvent_snd]
  have hnodes_new :
      (s.1.nodes ++ [mkNode s.1.node_counter e])[s.1.node_counter]? =
        some (mkNode s.1.node_counter e) := by
    rw [getElem?_concat, if_neg (by omega), if_pos hcnt]
  constructor
  case right => simp [hlen1]; omega
  case left =>
    refine ⟨?_, ?_, ?_, ?_, ?_, ?_, ?_⟩
    -- counter_eq
    · simp [hcnt]
    -- ids_eq
    · intro i nd hnd
      simp only at hnd
      rw [getElem?_concat] at hnd
      split at hnd
      · exact hids i nd hnd
      · split at hnd
        · next _ heq =>
          injection hnd with h3
          subst h3
          simp [mkNode, hcnt, heq]
        · cases hnd
    -- levels_pos
    · intro nd hnd
      simp only [List.mem_append, List.mem_singleton] at hnd
      rcases hnd with hnd | rfl
      · exact hpos nd hnd
      · simpa [mkNode] using h1
    -- edges_lt
    · intro e' he'
      simp only [List.mem_append, List.mem_map, Option.mem_toList] at he'
      rcases he' with he' | ⟨p, hp, rfl⟩
      · have := hedlt e' he'
        simp only
        omega
      · have hp_mem : p ∈ popStack s.2 e.level := List.mem_of_mem_head? hp
        have hp_lt : p < s.1.nodes.length := by
          cases hpop : popStack s.2 e.level with
          | nil => rw [hpop] at hp; cases hp
          | cons a rest =>
            rw [hpop] at hp
            injection hp with h3
            subst h3
            rw [hpop] at hstk1
            simp only [StackOK] at hstk1
            exact hstk1.1
        simp only
        omega
    -- stack_ok
    · simp only [StackOK]
      refine ⟨?_, ?_, ?_, ?_⟩
      · simp
        omega
      · intro nd hnd
        rw [hnodes_new] at hnd
        injection hnd with h3
        subst h3
        simp [mkNode]
        omega
      · intro q nd hq hnd
        rw [getElem?_concat] at hnd
        rw [if_neg (by omega), if_neg (by omega)] at hnd
        cases hnd
      · apply StackOK_extend s.1 _ (mkNode s.1.node_counter e) (by simp) _ hstk1
        simp [mkNode]
        omega
    -- ParentInvariant, edge conjunct
    · intro e' he' c' hc' hcid
      simp only [List.mem_append, List.mem_singleton, List.mem_map,
        Option.mem_toList] at he' hc'
      rcases he' with he' | ⟨p, hp, rfl⟩
      · -- an old edge: both endpoints are old nodes
        have hto : e'.to' < s.1.node_counter := (hedlt e' he').2
        have hc'_old : c' ∈ s.1.nodes := by
          rcases hc' with hc' | rfl
          · exact hc'
          · rw [mkNode] at hcid
            simp at hcid
            omega
        obtain ⟨p', hp'_mem, hpid, hplt, hplev, hmax⟩ := hpiA e' he' c' hc'_old hcid
        refine ⟨p', ?_, hpid, hplt, hplev, ?_⟩
        · simp only [List.mem_append, List.mem_singleton]
          exact Or.inl hp'_mem
        · intro q hq hq1 hq2
          simp only [List.mem_append, List.mem_singleton] at hq
          rcases hq with hq | rfl
          · exact hmax q hq hq1 hq2
          · rw [mkNode] at hq2
            simp at hq2
            have := hql c' hc'_old
            omega
      · -- the new edge: target is the new node, parent sits on the stack
        have hp_cons : ∃ rest, popStack s.2 e.level = p :: rest := by
          cases hpop : popStack s.2 e.level with
          | nil => rw [hpop] at hp; cases hp
          | cons a rest =>
            rw [hpop] at hp
            injection hp with h3
            subst h3
            exact ⟨rest, rfl⟩
        obtain ⟨rest, hpop⟩ := hp_cons
        rw [hpop] at hstk1
        simp only [StackOK] at hstk1
        obtain ⟨hp_lt, hp_lev, hp_dom, _⟩ := hstk1
        have hrest_len : rest.length = e.level - 2 := by
          rw [hpop] at hlen1
          simp at hlen1
          omega
        have hlev2 : 2 ≤ e.level := by
          rw [hpop] at hlen1
          simp at hlen1
          omega
        -- identify c' with the new node
        have hc'_new : c' = mkNode s.1.node_counter e := by
          rcases hc' with hc' | rfl
          · exfalso
            have := hql c' hc'
            simp only at hcid
            omega
          · rfl
        -- the parent is the node stored at index p
        obtain ⟨pnode, hpnode⟩ : ∃ nd, s.1.nodes[p]? = some nd :=
          ⟨s.1.nodes[p], List.getElem?_eq_some_iff.mpr ⟨hp_lt, rfl⟩⟩
        have hpnode_id : pnode.id = p := hids p pnode hpnode
        have hpnode_lev : pnode.level = rest.length + 1 := hp_lev pnode hpnode
        have hpnode_mem : pnode ∈ s.1.nodes := List.mem_iff_getElem?.mpr ⟨p, hpnode⟩
        subst hc'_new
        refine ⟨pnode, ?_, ?_, ?_, ?_, ?_⟩
        · simp only [List.mem_append, List.mem_singleton]
          exact Or.inl hpnode_mem
        · simpa using hpnode_id
        · simp only [mkNode]
          have := hql pnode hpnode_mem
          omega
        · simp only [mkNode]
          omega
        · intro q hq hq1 hq2
          simp only [List.mem_append, List.mem_singleton] at hq
          rcases hq with hq | rfl
          · have hq_idx : s.1.nodes[q.id]? = some q := hmem_idx q hq
            have : rest.length + 2 ≤ q.level := by
              apply hp_dom q.id q _ hq_idx
              omega
            simp only [mkNode]
            omega
          · simp only [mkNode] at hq1 hq2 ⊢
            omega
    -- ParentInvariant, orphan conjunct
    · intro c' hc' hno q hq hq1 hq2
      simp only [List.mem_append, List.mem_singleton, List.mem_map,
        Option.mem_toList] at hc' hq
      rcases hc' with hc' | rfl
      · -- an old orphan node
        have hq_old : q ∈ s.1.nodes := by
          rcases hq with hq | rfl
          · exact hq
          · have := hql c' hc'
            rw [mkNode] at hq1
            simp at hq1
            omega
        apply hpiB c' hc' _ q hq_old hq1 hq2
        intro e'' he''
        apply hno e''
        simp only [List.mem_append]
        exact Or.inl he''
      · -- the new node is an orphan: the stack must have emptied, level = 1
        cases hpop : popStack s.2 e.level with
        | cons a rest =>
          exfalso
          apply hno { from' := a, to' := s.1.node_counter }
          · simp only [List.mem_append, List.mem_map, Option.mem_toList]
            exact Or.inr ⟨a, by rw [hpop]; rfl, rfl⟩
          · simp [mkNode]
        | nil =>
          have hlev1 : e.level = 1 := by
            rw [hpop] at hlen1
            simp at hlen1
            omega
          rcases hq with hq | rfl
          · have := hpos q hq
            simp only [mkNode, hlev1] at hq2
            omega
          · simp only [mkNode] at hq1
            omega

theorem buildE_SInv :
    ∀ (evs : List HeadingEvent) (s : MindMap × List Nat),
      SInv s.1 s.2 → noSkipFrom s.2.length evs = true →
      SInv (buildE evs s).1 (buildE evs s).2 := by
  intro evs
  induction evs with
  | nil => intro s h _; exact h
  | cons e rest ih =>
    intro s h hns
    simp only [noSkipFrom, Bool.and_eq_true, decide_eq_true_eq] at hns
    obtain ⟨⟨h1, h2⟩, hrest⟩ := hns
    have step := processEvent_SInv s e h h1 h2
    rw [buildE]
    apply ih _ step.1
    rw [step.2]
    exact hrest

theorem SInv_init : SInv MindMap.init [] := by
  refine ⟨rfl, ?_, ?_, ?_, trivial, ?_, ?_⟩
  · intro i nd h
    simp [MindMap.init] at h
  · intro nd h
    simp [MindMap.init] at h
  · intro e h
    simp [MindMap.init] at h
  · intro e h
    simp [MindMap.init] at h
  · intro c h
    simp [MindMap.init] at h

/-- C1 counterexample: for the heading-event sequence `level 3 "A"` then
`level 2 "B"` — a sequence whose first heading has level greater than 1 —
the builder pops nothing (the stack is shorter than 2) and attaches B to A
via edge `0 -> 1`, although node 0 has level 3, which is not smaller than
B's level 2; the node of largest id below 1 with level < 2 does not exist,
so the claimed parent invariant fails on the produced graph. -/
theorem parent_invariant_counterexample :
    ¬ ParentInvariant (mindmapOfEvents
        [{ level := 3, label := "A", lineMap := none },
         { level := 2, label := "B", lineMap := none }]) := by
  decide

/-- C1 (amended): for every heading-event sequence without level skips —
first heading of level 1, every heading's level at least 1 and at most one
greater than its predecessor's — the parent of every non-root node is the
node with the largest id among nodes of smaller id and strictly smaller
level, and a node with no incoming edge has no earlier node of strictly
smaller level.  (For sequences with skips the builder instead takes the
parent from the top of the length-truncated path stack, which can have an
equal or larger level, as the counterexample shows.) -/
theorem parent_invariant_of_noSkip (evs : List HeadingEvent)
    (h : NoSkip evs = true) : ParentInvariant (mindmapOfEvents evs) :=
  (buildE_SInv evs (MindMap.init, []) SInv_init h).parent_inv

theorem parent_invariant_of_noSkip_witness :
    ParentInvariant (mindmapOfEvents
        [{ level := 1, label := "A", lineMap := none },
         { level := 2, label := "B", lineMap := none },
         { level := 2, label := "C", lineMap := none }]) :=
  parent_invariant_of_noSkip _ (by decide)
